import Mathlib

/-!
Verification of the Kintsu conversational memory pipeline.

This file gives a shallow embedding of the memory subsystem found in the
repository's Convex backend (the `memories` module: queueForProcessing,
processQueue, getConversationMessages, extractAndStoreMemories, search,
addInternal, invalidateInternal, getById) together with theorems settling
the specification's claims about it.

External collaborators (the embedding gateway, the structured-output LLM
gateway, the vector index, SHA-256) are opaque per the specification, so
they are passed in as function parameters of an `Env` record. A call that
may raise is modelled as a function returning `Option`; `none` is a thrown
exception caught by the surrounding try/catch of the source.

JavaScript truthiness on optional strings (the source guards
`decision.content || entry.memory.content` and
`if (decision.target_memory_id && decision.content)`) is modelled
explicitly: an empty string is falsy.
-/

namespace Kintsu

/-- Memory kinds, from the zod enum in `extractionSchema`. -/
inductive MemoryType where
  | episodic
  | semantic
  | procedural
deriving DecidableEq, Repr

/-- Reconciliation operations, from the zod enum in `decisionSchema`. -/
inductive MemoryAction where
  | ADD
  | UPDATE
  | INVALIDATE
  | NOOP
deriving DecidableEq, Repr

/-- One candidate fact emitted by the extraction LLM
(`extractionSchema.memories` entries). -/
structure ExtractedMemory where
  content : String
  type : MemoryType
  keywords : List String
deriving DecidableEq, Repr

/-- One core profile update emitted by the extraction LLM. The label is kept
as a runtime string: the `validLabels` guard in `extractAndStoreMemories`
is a runtime filter over whatever string value is present. -/
structure CoreUpdate where
  label : String
  content : String
deriving DecidableEq, Repr

/-- The structured result of the extraction LLM call. -/
structure ExtractionResult where
  memories : List ExtractedMemory
  core_memory_updates : List CoreUpdate
deriving DecidableEq, Repr

/-- One decision emitted by the reconciliation LLM
(`decisionSchema.decisions` entries). -/
structure MemoryDecision where
  new_memory_index : Nat
  action : MemoryAction
  content : Option String
  target_memory_id : Option String
  reason : String
deriving DecidableEq, Repr

/-- Embedding vectors are opaque to every branch of the pipeline logic
(they are produced by the gateway, stored, and passed back to the vector
index, never inspected), so they are modelled as opaque handles. -/
abbrev Embedding := Nat

/-- One stored fact record, following the `memories` table of the Convex
schema. `invalidAt` absent means the fact is active. -/
structure Fact where
  _id : String
  userId : String
  content : String
  embedding : Embedding
  type : MemoryType
  keywords : List String
  contentHash : Option String
  validAt : Option Nat
  invalidAt : Option Nat
  sourceConversationId : Option String
  createdAt : Nat
deriving DecidableEq, Repr

/-- One hit returned by the opaque vector index, carrying the document id
and the similarity score (`_score`). Scores are exact rationals here since
the pipeline only stores and copies them. -/
structure SimilarHit where
  _id : String
  score : ℚ
deriving DecidableEq, Repr

/-- One entry of the per-candidate `similar` array built in step 5 of
`extractAndStoreMemories` after the active-only re-check. -/
structure SimilarEntry where
  _id : String
  content : String
  type : MemoryType
  score : ℚ
deriving DecidableEq, Repr

/-- One value of the `existingByID` record built in step 6 of
`extractAndStoreMemories`. -/
structure ExistingEntry where
  id : String
  content : String
  type : MemoryType
  similarity : ℚ
deriving DecidableEq, Repr

/-- The per-candidate context assembled in step 5 of
`extractAndStoreMemories` (`memoriesWithContext` entries). -/
structure MemCtx where
  memory : ExtractedMemory
  embedding : Embedding
  similar : List SimilarEntry
deriving DecidableEq, Repr

/-- One role-tagged conversation turn as handed to the pipeline. -/
structure Msg where
  role : String
  content : String
deriving DecidableEq, Repr

/-- One row of the `messages` table. -/
structure MsgRow where
  conversationId : String
  role : String
  content : String
  createdAt : Nat
deriving DecidableEq, Repr

/-- The opaque collaborators of the pipeline. `gen` is the embedding
gateway, `vecSearch` the owner-scoped top-5 vector index query,
`extract` and `decide` the two structured-output LLM calls, `hashFn`
the SHA-256 used for content hashes, `freshId` the id supply of the
document store. A `none` result models a thrown exception. -/
structure Env where
  gen : String → Option Embedding
  vecSearch : Embedding → Option (List SimilarHit)
  extract : List Msg → Option ExtractionResult
  decide : List (Nat × String × MemoryType) → List ExistingEntry →
      Option (List MemoryDecision)
  hashFn : String → String
  freshId : Nat → String

/-- One effect applied to the memories table: an `addInternal` insert or
an `invalidateInternal` patch of `invalidAt`. -/
inductive StoreEffect where
  | insert (f : Fact)
  | invalidate (id : String)
deriving DecidableEq, Repr

/-- The memory store together with the effect and embedding-call logs the
claims talk about. -/
structure StoreState where
  db : List Fact
  nextId : Nat
  effects : List StoreEffect
  embedCalls : List String
deriving DecidableEq, Repr

/-- Point lookup of the store, following the source query `getById`. -/
def getById (db : List Fact) (id : String) : Option Fact :=
  db.find? (fun f => f._id = id)

/-- The fact record inserted by `addInternal`: content, embedding, type,
keywords and provenance from the caller, `validAt` and `createdAt` set to
now, `invalidAt` absent. -/
def mkMemFact (id userId content : String) (e : Embedding) (t : MemoryType)
    (kw : List String) (src : Option String) (now : Nat) : Fact :=
  { _id := id, userId := userId, content := content, embedding := e,
    type := t, keywords := kw, contentHash := none, validAt := some now,
    invalidAt := none, sourceConversationId := src, createdAt := now }

/-- The `addInternal` mutation: insert a fresh active fact and return its
id. -/
def addInternal (env : Env) (st : StoreState) (userId content : String)
    (e : Embedding) (t : MemoryType) (kw : List String)
    (src : Option String) (now : Nat) : StoreState × String :=
  let id := env.freshId st.nextId
  let f := mkMemFact id userId content e t kw src now
  ({ db := st.db ++ [f], nextId := st.nextId + 1,
     effects := st.effects ++ [.insert f], embedCalls := st.embedCalls },
   id)

/-- The `invalidateInternal` mutation: patch `invalidAt` on the target
document. A Convex patch of a missing document throws, modelled by
`none`. Only `invalidAt` is written; `content` is untouched. -/
def invalidateInternal (st : StoreState) (id : String) (now : Nat) :
    Option StoreState :=
  if st.db.any (fun f => f._id = id) then
    some { st with
      db := st.db.map (fun f =>
        if f._id = id then { f with invalidAt := some now } else f),
      effects := st.effects ++ [.invalidate id] }
  else
    none

/-- Queue item status, from the `memoryQueue` table. -/
inductive QStatus where
  | pending
  | processing
  | completed
  | failed
deriving DecidableEq, Repr

/-- One row of the `memoryQueue` table. -/
structure QueueItem where
  userId : String
  conversationId : String
  status : QStatus
  createdAt : Nat
deriving DecidableEq, Repr

/-- The queue store together with the count of drains scheduled through
`ctx.scheduler.runAfter`. -/
structure QueueState where
  items : List QueueItem
  scheduled : Nat
deriving DecidableEq, Repr

/-- The `queueForProcessing` mutation: look for a pending item of this
conversation; when found do nothing, otherwise insert a pending item and
schedule one drain. -/
def queueForProcessing (st : QueueState) (userId conversationId : String)
    (now : Nat) : QueueState :=
  let existing := st.items.find? (fun it =>
    it.status = QStatus.pending && it.conversationId = conversationId)
  match existing with
  | some _ => st
  | none =>
      { items := st.items ++
          [{ userId := userId, conversationId := conversationId,
             status := QStatus.pending, createdAt := now }],
        scheduled := st.scheduled + 1 }

/-- The `getConversationMessages` query: all rows of the conversation in
ascending creation order. The source applies no windowing. -/
def getConversationMessages (table : List MsgRow)
    (conversationId : String) : List MsgRow :=
  table.filter (fun m => m.conversationId = conversationId)

/-- The message list `processQueue` hands to `extractAndStoreMemories`:
the fetched rows mapped to role/content pairs, unchanged and uncapped. -/
def messagesHandedToExtraction (table : List MsgRow)
    (conversationId : String) : List Msg :=
  (getConversationMessages table conversationId).map (fun m =>
    { role := m.role, content := m.content })

/-- The public `search` action after the opaque vector query returned its
candidates: fetch each by id and keep it only when found and not
invalidated, pairing it with its score. Result order follows the loop
order of the source. -/
def searchFilter (db : List Fact) : List SimilarHit → List (Fact × ℚ)
  | [] => []
  | r :: rs =>
      match getById db r._id with
      | some m =>
          if m.invalidAt = none then (m, r.score) :: searchFilter db rs
          else searchFilter db rs
      | none => searchFilter db rs

/-- The per-candidate similar set of step 5 of `extractAndStoreMemories`:
each vector hit is fetched by id and kept only when found and not
invalidated. -/
def collectSimilar (db : List Fact) : List SimilarHit → List SimilarEntry
  | [] => []
  | r :: rs =>
      match getById db r._id with
      | some full =>
          if full.invalidAt = none then
            { _id := full._id, content := full.content,
              type := full.type, score := r.score } :: collectSimilar db rs
          else collectSimilar db rs
      | none => collectSimilar db rs

/-- JavaScript truthiness of an optional string field: present and
non-empty. -/
def jsTruthy (o : Option String) : Bool :=
  match o with
  | some s => s ≠ ""
  | none => false

/-- The source expression `decision.content || entry.memory.content`:
fall back to the default when the option is absent or empty. -/
def jsOr (o : Option String) (dflt : String) : String :=
  match o with
  | some s => if s = "" then dflt else s
  | none => dflt

/-- Step 5 of `extractAndStoreMemories`: per candidate, generate an
embedding and query the vector index inside a try/catch; a failing
candidate is skipped and the survivors are collected in order. -/
def buildContexts (env : Env) (db : List Fact) :
    List ExtractedMemory → List MemCtx
  | [] => []
  | m :: ms =>
      match env.gen m.content with
      | none => buildContexts env db ms
      | some e =>
          match env.vecSearch e with
          | none => buildContexts env db ms
          | some hits =>
              { memory := m, embedding := e,
                similar := collectSimilar db hits } ::
                buildContexts env db ms

/-- The value stored into `existingByID` for one similar entry. -/
def entryOf (s : SimilarEntry) : ExistingEntry :=
  { id := s._id, content := s.content, type := s.type,
    similarity := s.score }

/-- One assignment `existingByID[s._id] = {...}` on the record modelled as
an association list with JavaScript object semantics: an existing key is
overwritten in place, a fresh key is appended. -/
def dedupInsert (acc : List (String × ExistingEntry)) (s : SimilarEntry) :
    List (String × ExistingEntry) :=
  if acc.any (fun p => p.1 = s._id) then
    acc.map (fun p => if p.1 = s._id then (p.1, entryOf s) else p)
  else
    acc ++ [(s._id, entryOf s)]

/-- Step 6 of `extractAndStoreMemories`: the deduplicated union of every
candidate's similar set, keyed by fact id, built by the nested loops of
the source. -/
def buildExistingByID (ctxs : List MemCtx) :
    List (String × ExistingEntry) :=
  ctxs.foldl (fun acc m => m.similar.foldl dedupInsert acc) []

/-- `Object.values(existingByID)`. -/
def uniqueExisting (ctxs : List MemCtx) : List ExistingEntry :=
  (buildExistingByID ctxs).map (fun p => p.2)

/-- Lookup of one key of the `existingByID` record. -/
def lookupId (l : List (String × ExistingEntry)) (id : String) :
    Option ExistingEntry :=
  (l.find? (fun p => p.1 = id)).map (fun p => p.2)

/-- The flat traversal order of every candidate's similar entries, the
order in which the nested loops of step 6 visit them. -/
def allSimilar (ctxs : List MemCtx) : List SimilarEntry :=
  (ctxs.map (fun m => m.similar)).flatten

/-- The `newMemoriesForPrompt` array of step 6. -/
def newMemoriesForPrompt (ctxs : List MemCtx) :
    List (Nat × String × MemoryType) :=
  ctxs.enum.map (fun p => (p.1, p.2.memory.content, p.2.memory.type))

/-- The decisions synthesized without an LLM call when no similar existing
memory was found: one ADD per candidate with its own content. -/
def addAllDecisions (ctxs : List MemCtx) (reason : String) :
    List MemoryDecision :=
  ctxs.enum.map (fun p =>
    { new_memory_index := p.1, action := MemoryAction.ADD,
      content := some p.2.memory.content, target_memory_id := none,
      reason := reason })

/-- Step 6 decision selection: skip the LLM when `uniqueExisting` is
empty, otherwise ask it and fall back to ADD-all when the call throws. -/
def decideStep (env : Env) (ctxs : List MemCtx) : List MemoryDecision :=
  if (uniqueExisting ctxs).length = 0 then
    addAllDecisions ctxs "No similar existing memories found"
  else
    match env.decide (newMemoriesForPrompt ctxs) (uniqueExisting ctxs) with
    | some ds => ds
    | none => addAllDecisions ctxs "Decision LLM call failed, defaulting to ADD"

/-- Step 7 of `extractAndStoreMemories` for one decision, with the
try/catch of the source: a throw inside one decision keeps the effects
already applied for it and moves on. -/
def executeDecision (env : Env) (now : Nat)
    (userId conversationId : String) (ctxs : List MemCtx)
    (st : StoreState) (d : MemoryDecision) : StoreState :=
  match ctxs.get? d.new_memory_index with
  | none => st
  | some entry =>
    match d.action with
    | MemoryAction.ADD =>
        let content := jsOr d.content entry.memory.content
        if content = entry.memory.content then
          (addInternal env st userId content entry.embedding
            entry.memory.type entry.memory.keywords
            (some conversationId) now).1
        else
          let st1 := { st with embedCalls := st.embedCalls ++ [content] }
          match env.gen content with
          | none => st1
          | some e =>
              (addInternal env st1 userId content e entry.memory.type
                entry.memory.keywords (some conversationId) now).1
    | MemoryAction.UPDATE =>
        if jsTruthy d.target_memory_id && jsTruthy d.content then
          match d.target_memory_id, d.content with
          | some t, some c =>
              match invalidateInternal st t now with
              | none => st
              | some st1 =>
                  let st2 :=
                    { st1 with embedCalls := st1.embedCalls ++ [c] }
                  match env.gen c with
                  | none => st2
                  | some e =>
                      (addInternal env st2 userId c e entry.memory.type
                        entry.memory.keywords (some conversationId) now).1
          | _, _ => st
        else st
    | MemoryAction.INVALIDATE =>
        if jsTruthy d.target_memory_id then
          match d.target_memory_id with
          | some t => (invalidateInternal st t now).getD st
          | none => st
        else st
    | MemoryAction.NOOP => st

/-- The result of one `extractAndStoreMemories` run: the core profile
updates applied through `updateCoreMemoryInternal`, the decision list
executed, and the final store. -/
structure PipelineResult where
  applied : List CoreUpdate
  decisions : List MemoryDecision
  store : StoreState
deriving DecidableEq, Repr

/-- The four valid core profile labels guarded in step 4. -/
def validLabels : List String :=
  ["user_profile", "partner_info", "relationship_context", "preferences"]

/-- Steps 4 to 7 of `extractAndStoreMemories`, applied to a successful
extraction result: the early exits, the `validLabels` filter over core
updates, per-candidate context building, decision selection and decision
execution. -/
def processExtraction (env : Env) (st : StoreState) (now : Nat)
    (userId conversationId : String) (extraction : ExtractionResult) :
    PipelineResult :=
  let hasMemories := extraction.memories.length > 0
  let hasCoreUpdates := extraction.core_memory_updates.length > 0
  if !hasMemories && !hasCoreUpdates then
    { applied := [], decisions := [], store := st }
  else
    let applied := extraction.core_memory_updates.filter (fun u =>
      validLabels.contains u.label)
    if !hasMemories then
      { applied := applied, decisions := [], store := st }
    else
      let ctxs := buildContexts env st.db extraction.memories
      if ctxs.length = 0 then
        { applied := applied, decisions := [], store := st }
      else
        let decisions := decideStep env ctxs
        let final := decisions.foldl
          (executeDecision env now userId conversationId ctxs) st
        { applied := applied, decisions := decisions, store := final }

/-- The `extractAndStoreMemories` internal handler: the extraction LLM
call with its try/catch (a throw returns with nothing done), then the
post-extraction steps. -/
def extractAndStoreMemories (env : Env) (st : StoreState) (now : Nat)
    (userId conversationId : String) (messages : List Msg) :
    PipelineResult :=
  match env.extract messages with
  | none => { applied := [], decisions := [], store := st }
  | some extraction =>
      processExtraction env st now userId conversationId extraction

/-- The content normalization of `computeContentHash` in the repository's
test suite: trim then lowercase, before hashing. -/
def normalizeContent (s : String) : String :=
  s.trim.toLower

/-- The result shape of `addFromTool` as consumed by the `saveMemory`
tool in the web agent. -/
structure AddFromToolResult where
  success : Bool
  memoryId : Option String
  reason : Option String
deriving DecidableEq, Repr

/-- Modelled from the spec: `addFromTool`, the direct synchronous
single-fact insert path. Its implementation is not in the repository
snapshot; only its call site (`saveMemory` in the web agent), the
`contentHash` field, the `by_content_hash` index and the
`HASH_DUPLICATE` audit literal of the schema, and the
`computeContentHash` mirror in the test suite are. Following the spec's
words: the content hash of the normalized content governs a fast path
that rejects and reports a duplicate when an identical normalized-hash
fact already exists and is active for the owner; otherwise an embedding
is computed and a new active fact is inserted, returning success with
its id. -/
def addFromTool (env : Env) (st : StoreState) (now : Nat)
    (userId content : String) (t : MemoryType) (kw : List String) :
    AddFromToolResult × StoreState :=
  let h := env.hashFn (normalizeContent content)
  if st.db.any (fun f =>
      f.userId = userId && f.contentHash = some h && f.invalidAt = none) then
    ({ success := false, memoryId := none,
       reason := some "duplicate memory content" }, st)
  else
    match env.gen content with
    | none =>
        ({ success := false, memoryId := none,
           reason := some "embedding failed" }, st)
    | some e =>
        let id := env.freshId st.nextId
        let f := { mkMemFact id userId content e t kw none now with
                     contentHash := some h }
        ({ success := true, memoryId := some id, reason := none },
         { db := st.db ++ [f], nextId := st.nextId + 1,
           effects := st.effects ++ [StoreEffect.insert f],
           embedCalls := st.embedCalls ++ [content] })

/-! Concrete fixtures used by witnesses and counterexamples. -/

/-- A deterministic environment for concrete runs: embeddings are string
lengths, the vector index returns no hits, extraction yields two semantic
candidates, the decision LLM throws, ids are counters. -/
def envA : Env :=
  { gen := fun s => some s.length,
    vecSearch := fun _ => some [],
    extract := fun _ => some
      { memories := [{ content := "X", type := MemoryType.semantic,
                       keywords := ["k"] },
                     { content := "B", type := MemoryType.episodic,
                       keywords := [] }],
        core_memory_updates := [] },
    decide := fun _ _ => none,
    hashFn := fun s => String.append s "#",
    freshId := fun n => String.append "m" (toString n) }

/-- An empty store. -/
def st0 : StoreState := { db := [], nextId := 0, effects := [], embedCalls := [] }

/-- An active fact with id t1 used as an UPDATE target. -/
def factT1 : Fact :=
  { _id := "t1", userId := "u1", content := "old", embedding := 7,
    type := MemoryType.semantic, keywords := [], contentHash := none,
    validAt := some 1, invalidAt := none, sourceConversationId := none,
    createdAt := 1 }

/-- An invalidated fact used by the search witness. -/
def factDead : Fact :=
  { _id := "t2", userId := "u1", content := "gone", embedding := 8,
    type := MemoryType.semantic, keywords := [], contentHash := none,
    validAt := some 1, invalidAt := some 2, sourceConversationId := none,
    createdAt := 1 }

/-- A store holding one active and one invalidated fact. -/
def stT1 : StoreState :=
  { db := [factT1, factDead], nextId := 5, effects := [], embedCalls := [] }

/-- A candidate context with no similar entries. -/
def ctxPlain : MemCtx :=
  { memory := { content := "cand", type := MemoryType.semantic,
                keywords := ["kw"] },
    embedding := 3, similar := [] }

/-- Candidate A of the deduplication example: similar to X with score 0.9
and to Y with score 0.85. -/
def ctxDedupA : MemCtx :=
  { memory := { content := "A", type := MemoryType.semantic, keywords := [] },
    embedding := 1,
    similar := [{ _id := "X", content := "fx", type := MemoryType.semantic,
                  score := (9:ℚ)/10 },
                { _id := "Y", content := "fy", type := MemoryType.semantic,
                  score := (85:ℚ)/100 }] }

/-- Candidate B of the deduplication example: similar to Y with score 0.88
and to Z with score 0.8. -/
def ctxDedupB : MemCtx :=
  { memory := { content := "B", type := MemoryType.semantic, keywords := [] },
    embedding := 2,
    similar := [{ _id := "Y", content := "fy", type := MemoryType.semantic,
                  score := (88:ℚ)/100 },
                { _id := "Z", content := "fz", type := MemoryType.episodic,
                  score := (8:ℚ)/10 }] }

/-- A messages table holding 21 rows of one conversation. -/
def msgTable21 : List MsgRow :=
  (List.range 21).map (fun i =>
    { conversationId := "c1", role := "user",
      content := String.append "msg" (toString i), createdAt := i })

/-- The insert sequence the ADD-all shortcut is expected to produce: one
fresh active fact per surviving candidate, carrying that candidate's own
content and reconciliation embedding, with consecutive ids. Used to state
the claims about the ADD-all execution. -/
def expectedAddInserts (env : Env) (userId conversationId : String)
    (now : Nat) : List MemCtx → Nat → List Fact
  | [], _ => []
  | c :: cs, n =>
      mkMemFact (env.freshId n) userId c.memory.content c.embedding
        c.memory.type c.memory.keywords (some conversationId) now ::
        expectedAddInserts env userId conversationId now cs (n + 1)

/-- A deterministic environment whose embedding gateway throws on the
candidate content A and succeeds elsewhere. -/
def envB : Env :=
  { gen := fun s => if s = "A" then none else some s.length,
    vecSearch := fun _ => some [],
    extract := fun _ => some
      { memories := [{ content := "A", type := MemoryType.semantic,
                       keywords := [] },
                     { content := "B", type := MemoryType.episodic,
                       keywords := [] }],
        core_memory_updates := [] },
    decide := fun _ _ => none,
    hashFn := fun s => String.append s "#",
    freshId := fun n => String.append "m" (toString n) }

/-- A concrete UPDATE decision carrying a target and a merged content. -/
def dUpdFix : MemoryDecision :=
  { new_memory_index := 0, action := MemoryAction.UPDATE,
    content := some "merged", target_memory_id := some "t1", reason := "r" }

/-- A concrete UPDATE decision carrying a target and an empty content. -/
def dUpdEmptyFix : MemoryDecision :=
  { new_memory_index := 0, action := MemoryAction.UPDATE,
    content := some "", target_memory_id := some "t1", reason := "r" }

/-- A concrete ADD decision carrying an empty content string. -/
def dAddEmptyFix : MemoryDecision :=
  { new_memory_index := 0, action := MemoryAction.ADD,
    content := some "", target_memory_id := none, reason := "r" }

/-- A concrete ADD decision whose content rewrites the candidate. -/
def dAddRewriteFix : MemoryDecision :=
  { new_memory_index := 0, action := MemoryAction.ADD,
    content := some "Y", target_memory_id := none, reason := "r" }

/-- A deterministic environment whose embedding gateway always throws. -/
def envC : Env :=
  { gen := fun _ => none,
    vecSearch := fun _ => some [],
    extract := fun _ => some
      { memories := [{ content := "X", type := MemoryType.semantic,
                       keywords := ["k"] },
                     { content := "B", type := MemoryType.episodic,
                       keywords := [] }],
        core_memory_updates := [] },
    decide := fun _ _ => none,
    hashFn := fun s => String.append s "#",
    freshId := fun n => String.append "m" (toString n) }

/-!
Theorems. Each claim of the specification is settled by one theorem,
with witnesses for hypotheses and counterexamples where the claim as
stated fails.
-/

/-- C6: enqueue is idempotent while a pending item exists. While some
pending item for the conversation exists, enqueue changes nothing (no
insert, no scheduled drain); when none exists, it appends exactly one
pending item and schedules exactly one drain; hence two calls in a row
starting without a pending item insert exactly one item, the second call
being a no-op. -/
theorem enqueue_idempotent :
    (∀ (st : QueueState) (u c : String) (now : Nat),
      (st.items.any (fun it =>
        it.status = QStatus.pending && it.conversationId = c)) = true →
      queueForProcessing st u c now = st) ∧
    (∀ (st : QueueState) (u c : String) (now : Nat),
      (st.items.any (fun it =>
        it.status = QStatus.pending && it.conversationId = c)) = false →
      queueForProcessing st u c now =
        { items := st.items ++
            [{ userId := u, conversationId := c,
               status := QStatus.pending, createdAt := now }],
          scheduled := st.scheduled + 1 }) ∧
    (∀ (st : QueueState) (u c : String) (n1 n2 : Nat),
      (st.items.any (fun it =>
        it.status = QStatus.pending && it.conversationId = c)) = false →
      queueForProcessing (queueForProcessing st u c n1) u c n2 =
        queueForProcessing st u c n1) := by
  have hnoop : ∀ (st : QueueState) (u c : String) (now : Nat),
      (st.items.any (fun it =>
        it.status = QStatus.pending && it.conversationId = c)) = true →
      queueForProcessing st u c now = st := by
    intro st u c now h
    unfold queueForProcessing
    rcases hf : st.items.find? (fun it =>
        it.status = QStatus.pending && it.conversationId = c) with _ | it
    · rw [List.find?_eq_none] at hf
      rw [List.any_eq_true] at h
      obtain ⟨x, hx, hpx⟩ := h
      exact absurd hpx (by simpa using hf x hx)
    · rw [hf]
  have hins : ∀ (st : QueueState) (u c : String) (now : Nat),
      (st.items.any (fun it =>
        it.status = QStatus.pending && it.conversationId = c)) = false →
      queueForProcessing st u c now =
        { items := st.items ++
            [{ userId := u, conversationId := c,
               status := QStatus.pending, createdAt := now }],
          scheduled := st.scheduled + 1 } := by
    intro st u c now h
    unfold queueForProcessing
    rcases hf : st.items.find? (fun it =>
        it.status = QStatus.pending && it.conversationId = c) with _ | it
    · rw [hf]
    · have := List.find?_some hf
      have hmem := List.mem_of_find?_eq_some hf
      rw [List.any_eq_false] at h
      exact absurd this (by simpa using h it hmem)
  refine ⟨hnoop, hins, ?_⟩
  intro st u c n1 n2 h
  apply hnoop
  rw [hins st u c n1 h]
  simp

/-- C6 witness: from the empty queue, the first enqueue inserts a pending
item and schedules a drain, and a second enqueue is a no-op. -/
theorem enqueue_idempotent_witness :
    queueForProcessing
        (queueForProcessing { items := [], scheduled := 0 } "u" "c" 1)
        "u" "c" 2 =
      queueForProcessing { items := [], scheduled := 0 } "u" "c" 1 :=
  enqueue_idempotent.2.2 { items := [], scheduled := 0 } "u" "c" 1 2
    (by decide)

/-- C7 evidence: the conversation window handed to the Extraction Stage is
not capped. For a conversation holding 21 messages,
`getConversationMessages` together with the processQueue hand-off passes
all 21 turns, oldest included, to extraction, where the specification and
the repository's own test suite require at most the most recent 20. -/
theorem conversation_window_uncapped :
    (messagesHandedToExtraction msgTable21 "c1").length = 21 ∧
    (messagesHandedToExtraction msgTable21 "c1").head? =
      some { role := "user", content := "msg0" } := by
  constructor
  · rfl
  · rfl

/-- C2: the public search action and the reconciliation similar sets are
post-filtered to active facts only: every returned search result has
`invalidAt` absent, a fact record with `invalidAt` set never appears in
results whatever its score, and every similar entry kept during
reconciliation comes from a stored fact with `invalidAt` absent. -/
theorem search_active_only (db : List Fact)
    (results hits : List SimilarHit) :
    (∀ p ∈ searchFilter db results, p.1.invalidAt = none) ∧
    (∀ f : Fact, f.invalidAt ≠ none →
      ∀ p ∈ searchFilter db results, p.1 ≠ f) ∧
    (∀ s ∈ collectSimilar db hits, ∃ f : Fact,
      getById db s._id = some f ∧ f.invalidAt = none ∧
      f.content = s.content) := by
  have hsearch : ∀ rs, ∀ p ∈ searchFilter db rs, p.1.invalidAt = none := by
    intro rs
    induction rs with
    | nil => intro p hp; simp [searchFilter] at hp
    | cons r rest ih =>
        intro p hp
        rcases hg : getById db r._id with _ | m
        · simp only [searchFilter, hg] at hp
          exact ih p hp
        · simp only [searchFilter, hg] at hp
          by_cases hm : m.invalidAt = none
          · rw [if_pos hm] at hp
            rcases List.mem_cons.mp hp with h | h
            · rw [h]; exact hm
            · exact ih p h
          · rw [if_neg hm] at hp; exact ih p hp
  refine ⟨hsearch results, ?_, ?_⟩
  · intro f hf p hp hcontra
    exact hf (hcontra ▸ hsearch results p hp)
  · intro s hs
    induction hits with
    | nil => simp [collectSimilar] at hs
    | cons r rest ih =>
        rcases hg : getById db r._id with _ | full
        · simp only [collectSimilar, hg] at hs
          exact ih hs
        · simp only [collectSimilar, hg] at hs
          by_cases hm : full.invalidAt = none
          · rw [if_pos hm] at hs
            rcases List.mem_cons.mp hs with h | h
            · refine ⟨full, ?_, hm, ?_⟩
              · have hsid : s._id = full._id := by rw [h]
                have hg' : List.find? (fun f => f._id = r._id) db = some full := hg
                have hfs := List.find?_some hg'
                have hid : full._id = r._id := by simpa using hfs
                rw [getById, hsid, hid]
                rw [getById] at hg
                exact hg
              · rw [h]
            · exact ih h
          · rw [if_neg hm] at hs; exact ih hs

/-- C2 witness: in a store with one active and one invalidated fact, a
query whose vector hits name both returns only the active one. -/
theorem search_active_only_witness :
    (factT1, (9:ℚ)/10).1.invalidAt = none ∧
    (factT1, (9:ℚ)/10).1 ≠ factDead := by
  have hcomp : searchFilter stT1.db
      [{ _id := "t1", score := (9:ℚ)/10 }, { _id := "t2", score := (8:ℚ)/10 }] =
      [(factT1, (9:ℚ)/10)] := by
    simp [searchFilter, getById, stT1, factT1, factDead, List.find?]
  have hmem : (factT1, (9:ℚ)/10) ∈ searchFilter stT1.db
      [{ _id := "t1", score := (9:ℚ)/10 }, { _id := "t2", score := (8:ℚ)/10 }] := by
    rw [hcomp]
    exact List.mem_singleton.mpr rfl
  refine ⟨(search_active_only stT1.db
      [{ _id := "t1", score := (9:ℚ)/10 }, { _id := "t2", score := (8:ℚ)/10 }]
      []).1 _ hmem, ?_⟩
  intro h
  exact (search_active_only stT1.db
      [{ _id := "t1", score := (9:ℚ)/10 }, { _id := "t2", score := (8:ℚ)/10 }]
      []).2.1 factDead (by simp [factDead]) _ hmem h

/-- One upsert on the `existingByID` record: the key written wins, every
other key keeps its previous value. -/
theorem lookupId_dedupInsert (acc : List (String × ExistingEntry))
    (s : SimilarEntry) (i : String) :
    lookupId (dedupInsert acc s) i =
      if i = s._id then some (entryOf s) else lookupId acc i := by
  unfold dedupInsert
  by_cases hany : acc.any (fun p => p.1 = s._id) = true
  · rw [if_pos hany]
    have hg : (fun p : String × ExistingEntry =>
        decide (((if p.1 = s._id then (p.1, entryOf s) else p) : String × ExistingEntry).1 = i)) =
        (fun p : String × ExistingEntry => decide (p.1 = i)) := by
      funext p
      by_cases hp : p.1 = s._id <;> simp [hp]
    rw [lookupId, List.find?_map]
    rw [show ((fun p : String × ExistingEntry => decide (p.1 = i)) ∘
        (fun p : String × ExistingEntry =>
          if p.1 = s._id then (p.1, entryOf s) else p)) =
        (fun p : String × ExistingEntry => decide (p.1 = i)) from hg]
    by_cases hi : i = s._id
    · rw [if_pos hi]
      rw [List.any_eq_true] at hany
      obtain ⟨p, hp, hps⟩ := hany
      have hsome : (acc.find? (fun p => p.1 = i)).isSome := by
        rw [List.find?_isSome]
        exact ⟨p, hp, by simp at hps; simp [hps, hi]⟩
      obtain ⟨q, hq⟩ := Option.isSome_iff_exists.mp hsome
      have hqi : q.1 = i := by simpa using List.find?_some hq
      rw [hq]
      simp [hqi, hi]
    · rw [if_neg hi, lookupId]
      cases hfind : acc.find? (fun p => p.1 = i) with
      | none => simp
      | some q =>
          have hqi : q.1 = i := by simpa using List.find?_some hfind
          have hqs : ¬ q.1 = s._id := by rw [hqi]; exact hi
          simp [hqs]
  · rw [if_neg hany]
    have hall : ∀ p ∈ acc, ¬ p.1 = s._id := by
      intro p hp hps
      exact hany (List.any_eq_true.mpr ⟨p, hp, by simpa using hps⟩)
    rw [lookupId, List.find?_append]
    by_cases hi : i = s._id
    · rw [if_pos hi]
      have hnone : acc.find? (fun p => p.1 = i) = none := by
        rw [List.find?_eq_none]
        intro p hp
        simp only [decide_eq_true_eq]
        rw [hi]
        exact hall p hp
      rw [hnone]
      simp [hi]
    · rw [if_neg hi, lookupId]
      have hsi : ¬ s._id = i := fun h => hi (Eq.symm h)
      have hsing : List.find? (fun p : String × ExistingEntry => p.1 = i)
          [(s._id, entryOf s)] = none := by
        simp [List.find?, hsi]
      rw [hsing]
      simp

/-- Folding one similar list into the record: lookup returns the last
occurrence of the key in that list, falling back to the previous record
value. -/
theorem lookupId_foldl_dedupInsert (l : List SimilarEntry) :
    ∀ (acc : List (String × ExistingEntry)) (i : String),
    lookupId (l.foldl dedupInsert acc) i =
      ((l.reverse.find? (fun s => s._id = i)).map entryOf).or
        (lookupId acc i) := by
  induction l with
  | nil => intro acc i; simp
  | cons s l ih =>
      intro acc i
      rw [List.foldl_cons, ih, lookupId_dedupInsert]
      rw [List.reverse_cons, List.find?_append]
      cases hfind : l.reverse.find? (fun x => x._id = i) with
      | some x => simp
      | none =>
          by_cases hi : i = s._id
          · simp [hi]
          · have hsi : ¬ s._id = i := fun h => hi (Eq.symm h)
            simp [List.find?, hsi, hi]

/-- The nested loops of step 6 equal one fold over the flat traversal. -/
theorem buildExistingByID_eq_foldl (ctxs : List MemCtx) :
    ∀ acc, ctxs.foldl (fun a m => m.similar.foldl dedupInsert a) acc =
      (allSimilar ctxs).foldl dedupInsert acc := by
  induction ctxs with
  | nil => intro acc; simp [allSimilar]
  | cons c rest ih =>
      intro acc
      rw [List.foldl_cons, ih]
      rw [show allSimilar (c :: rest) = c.similar ++ allSimilar rest from by
        simp [allSimilar]]
      rw [List.foldl_append]

/-- Upserts keep the key set duplicate-free. -/
theorem keys_nodup_foldl_dedupInsert (l : List SimilarEntry) :
    ∀ acc : List (String × ExistingEntry),
    ((acc.map (fun p => p.1)).Nodup) →
    (((l.foldl dedupInsert acc).map (fun p => p.1)).Nodup) := by
  induction l with
  | nil => intro acc h; simpa using h
  | cons s l ih =>
      intro acc h
      rw [List.foldl_cons]
      apply ih
      unfold dedupInsert
      by_cases hany : acc.any (fun p => p.1 = s._id) = true
      · rw [if_pos hany]
        have : (acc.map (fun p : String × ExistingEntry =>
            if p.1 = s._id then (p.1, entryOf s) else p)).map
            (fun p => p.1) = acc.map (fun p => p.1) := by
          rw [List.map_map]
          apply List.map_congr_left
          intro p _
          by_cases hp : p.1 = s._id <;> simp [hp]
        rw [this]
        exact h
      · rw [if_neg hany]
        rw [List.map_append, List.nodup_append]
        refine ⟨h, List.nodup_singleton _, ?_⟩
        intro a ha hb
        simp at hb
        obtain ⟨p, hp, hpa⟩ := List.mem_map.mp ha
        apply hany
        exact List.any_eq_true.mpr ⟨p, hp, by simp [hpa, hb]⟩

/-- C4: the deduplicated union `existingByID` is keyed by fact id with
each key present at most once, and lookup of a key returns the entry of
its last occurrence in candidate processing order (last write wins); on
the concrete example, candidate A similar to X at 0.9 and Y at 0.85
followed by candidate B similar to Y at 0.88 and Z at 0.8 yields exactly
the keys X, Y, Z with Y recorded at B's score 0.88. -/
theorem existingByID_last_write_wins :
    (∀ ctxs : List MemCtx,
      ((buildExistingByID ctxs).map (fun p => p.1)).Nodup) ∧
    (∀ (ctxs : List MemCtx) (i : String),
      lookupId (buildExistingByID ctxs) i =
        ((allSimilar ctxs).reverse.find? (fun s => s._id = i)).map entryOf) ∧
    ((buildExistingByID [ctxDedupA, ctxDedupB]).map (fun p => p.1) =
        ["X", "Y", "Z"] ∧
      lookupId (buildExistingByID [ctxDedupA, ctxDedupB]) "Y" =
        some { id := "Y", content := "fy", type := MemoryType.semantic,
               similarity := (88:ℚ)/100 }) := by
  have hfold : ∀ ctxs : List MemCtx,
      buildExistingByID ctxs = (allSimilar ctxs).foldl dedupInsert [] := by
    intro ctxs
    rw [buildExistingByID, buildExistingByID_eq_foldl]
  refine ⟨?_, ?_, ?_, ?_⟩
  · intro ctxs
    rw [hfold]
    exact keys_nodup_foldl_dedupInsert _ [] (by simp)
  · intro ctxs i
    rw [hfold, lookupId_foldl_dedupInsert]
    simp [lookupId]
  · rfl
  · rfl

/-- C1 counterexample: the claim as stated fails at a decision carrying
`content = some ""`. The source guard tests JavaScript truthiness, so an
UPDATE decision that carries both a targetId and a content, the content
being the empty string, performs zero store effects instead of two, even
though its target exists and is active. -/
theorem update_empty_content_noop :
    executeDecision envA 200 "u1" "c1" [ctxPlain] stT1 dUpdEmptyFix =
        stT1 ∧
    dUpdEmptyFix.content = some "" ∧
    dUpdEmptyFix.target_memory_id = some "t1" ∧
    stT1.effects = [] := by
  refine ⟨rfl, rfl, rfl, rfl⟩

/-- C1 (amended): an UPDATE decision that addresses a candidate and
carries both a non-empty targetId and a non-empty content, whose target
exists in the store and whose embedding call succeeds, performs exactly
two store effects: one invalidate patch setting `invalidAt` on the
target, then one insert of a new active fact carrying the decision's
content with a freshly computed embedding; the target keeps its original
content, which is never patched. -/
theorem update_decision_two_effects (env : Env) (now : Nat)
    (userId conversationId : String) (ctxs : List MemCtx)
    (st : StoreState) (d : MemoryDecision) (entry : MemCtx)
    (t c : String) (e : Embedding)
    (hidx : ctxs.get? d.new_memory_index = some entry)
    (hact : d.action = MemoryAction.UPDATE)
    (ht : d.target_memory_id = some t) (htne : t ≠ "")
    (hc : d.content = some c) (hcne : c ≠ "")
    (hgen : env.gen c = some e)
    (hex : st.db.any (fun f => f._id = t) = true) :
    executeDecision env now userId conversationId ctxs st d =
      { db := (st.db.map (fun f =>
          if f._id = t then { f with invalidAt := some now } else f)) ++
          [mkMemFact (env.freshId st.nextId) userId c e entry.memory.type
            entry.memory.keywords (some conversationId) now],
        nextId := st.nextId + 1,
        effects := st.effects ++
          [StoreEffect.invalidate t,
           StoreEffect.insert (mkMemFact (env.freshId st.nextId) userId c e
             entry.memory.type entry.memory.keywords (some conversationId)
             now)],
        embedCalls := st.embedCalls ++ [c] } ∧
    (mkMemFact (env.freshId st.nextId) userId c e entry.memory.type
        entry.memory.keywords (some conversationId) now).invalidAt = none ∧
    (∀ f ∈ st.db, f._id = t →
      { f with invalidAt := some now } ∈
        (executeDecision env now userId conversationId ctxs st d).db ∧
      ({ f with invalidAt := some now } : Fact).content = f.content) := by
  have hmain : executeDecision env now userId conversationId ctxs st d =
      { db := (st.db.map (fun f =>
          if f._id = t then { f with invalidAt := some now } else f)) ++
          [mkMemFact (env.freshId st.nextId) userId c e entry.memory.type
            entry.memory.keywords (some conversationId) now],
        nextId := st.nextId + 1,
        effects := st.effects ++
          [StoreEffect.invalidate t,
           StoreEffect.insert (mkMemFact (env.freshId st.nextId) userId c e
             entry.memory.type entry.memory.keywords (some conversationId)
             now)],
        embedCalls := st.embedCalls ++ [c] } := by
    unfold executeDecision
    rw [hidx, hact, ht, hc]
    have htr : (jsTruthy (some t) && jsTruthy (some c)) = true := by
      simp [jsTruthy, htne, hcne]
    rw [htr]
    simp only [if_true]
    unfold invalidateInternal
    rw [hex]
    simp only [if_true]
    rw [hgen]
    unfold addInternal
    simp [List.append_assoc]
  refine ⟨hmain, rfl, ?_⟩
  intro f hf hft
  constructor
  · rw [hmain]
    apply List.mem_append_left
    exact List.mem_map.mpr ⟨f, hf, by simp [hft]⟩
  · rfl

/-- C1 witness: on a store holding the active target t1, the concrete
UPDATE decision performs exactly the invalidate-then-insert pair. -/
theorem update_decision_two_effects_witness :
    (executeDecision envA 200 "u1" "c1" [ctxPlain] stT1 dUpdFix).effects =
      [StoreEffect.invalidate "t1",
       StoreEffect.insert (mkMemFact "m5" "u1" "merged" 6
         MemoryType.semantic ["kw"] (some "c1") 200)] := by
  have h := (update_decision_two_effects envA 200 "u1" "c1" [ctxPlain]
    stT1 dUpdFix ctxPlain "t1" "merged" 6 rfl rfl rfl (by decide) rfl
    (by decide) rfl (by decide)).1
  rw [h]
  rfl

/-- C5 counterexample: the claim as stated fails at an ADD decision
carrying `content = some ""`. The content is present yet the source's
fallback (JavaScript truthiness of the or-expression) inserts the
original candidate content and reuses the reconciliation embedding with
no fresh embedding call, although the present content differs from the
candidate content. -/
theorem add_empty_content_falls_back :
    (executeDecision envA 200 "u1" "c1" [ctxPlain] stT1 dAddEmptyFix).db =
      stT1.db ++ [mkMemFact "m5" "u1" "cand" 3 MemoryType.semantic ["kw"]
        (some "c1") 200] ∧
    dAddEmptyFix.content = some "" ∧
    ("" : String) ≠ "cand" ∧
    (executeDecision envA 200 "u1" "c1" [ctxPlain] stT1
      dAddEmptyFix).embedCalls = [] := by
  refine ⟨rfl, rfl, by decide, rfl⟩

/-- C5 (amended): for an ADD decision the final content is the decision's
content when present and non-empty, else the original candidate content;
the embedding computed during reconciliation is reused if and only if the
final content string-equals the candidate content, in which case no
embedding call is made, and otherwise exactly one fresh embedding call is
made for the final content. -/
theorem add_decision_content_embedding (env : Env) (now : Nat)
    (userId conversationId : String) (ctxs : List MemCtx)
    (st : StoreState) (d : MemoryDecision) (entry : MemCtx)
    (hidx : ctxs.get? d.new_memory_index = some entry)
    (hact : d.action = MemoryAction.ADD) :
    (d.content = none →
      executeDecision env now userId conversationId ctxs st d =
        { db := st.db ++ [mkMemFact (env.freshId st.nextId) userId
            entry.memory.content entry.embedding entry.memory.type
            entry.memory.keywords (some conversationId) now],
          nextId := st.nextId + 1,
          effects := st.effects ++ [StoreEffect.insert
            (mkMemFact (env.freshId st.nextId) userId entry.memory.content
              entry.embedding entry.memory.type entry.memory.keywords
              (some conversationId) now)],
          embedCalls := st.embedCalls }) ∧
    (∀ c, d.content = some c → c ≠ "" → c = entry.memory.content →
      executeDecision env now userId conversationId ctxs st d =
        { db := st.db ++ [mkMemFact (env.freshId st.nextId) userId c
            entry.embedding entry.memory.type entry.memory.keywords
            (some conversationId) now],
          nextId := st.nextId + 1,
          effects := st.effects ++ [StoreEffect.insert
            (mkMemFact (env.freshId st.nextId) userId c entry.embedding
              entry.memory.type entry.memory.keywords (some conversationId)
              now)],
          embedCalls := st.embedCalls }) ∧
    (∀ c e, d.content = some c → c ≠ "" → c ≠ entry.memory.content →
      env.gen c = some e →
      executeDecision env now userId conversationId ctxs st d =
        { db := st.db ++ [mkMemFact (env.freshId st.nextId) userId c e
            entry.memory.type entry.memory.keywords (some conversationId)
            now],
          nextId := st.nextId + 1,
          effects := st.effects ++ [StoreEffect.insert
            (mkMemFact (env.freshId st.nextId) userId c e entry.memory.type
              entry.memory.keywords (some conversationId) now)],
          embedCalls := st.embedCalls ++ [c] }) := by
  refine ⟨?_, ?_, ?_⟩
  · intro hnone
    unfold executeDecision
    rw [hidx, hact, hnone]
    simp only [jsOr, if_pos rfl]
    unfold addInternal
    simp
  · intro c hc hcne hceq
    unfold executeDecision
    rw [hidx, hact, hc]
    have hj : jsOr (some c) entry.memory.content = c := by
      simp [jsOr, hcne]
    simp only [hj]
    rw [if_pos hceq]
    unfold addInternal
    simp
  · intro c e hc hcne hcneq hgen
    unfold executeDecision
    rw [hidx, hact, hc]
    have hj : jsOr (some c) entry.memory.content = c := by
      simp [jsOr, hcne]
    simp only [hj]
    rw [if_neg hcneq, hgen]
    unfold addInternal
    simp

/-- C5 witness: the concrete ADD decision rewriting candidate content
cand to Y inserts Y with one fresh embedding call. -/
theorem add_decision_content_embedding_witness :
    executeDecision envA 200 "u1" "c1" [ctxPlain] stT1 dAddRewriteFix =
      { db := stT1.db ++ [mkMemFact "m5" "u1" "Y" 1 MemoryType.semantic
          ["kw"] (some "c1") 200],
        nextId := 6,
        effects := [StoreEffect.insert (mkMemFact "m5" "u1" "Y" 1
          MemoryType.semantic ["kw"] (some "c1") 200)],
        embedCalls := ["Y"] } := by
  have h := (add_decision_content_embedding envA 200 "u1" "c1" [ctxPlain]
    stT1 dAddRewriteFix ctxPlain rfl rfl).2.2 "Y" 1 rfl (by decide)
    (by decide) rfl
  rw [h]
  rfl

/-- The or-fallback of the ADD branch is the identity when the decision
content equals the candidate content. -/
theorem jsOr_self (a : String) : jsOr (some a) a = a := by
  show (if a = "" then a else a) = a
  split <;> rfl

/-- Executing one synthesized ADD decision for candidate i: the candidate
content equals itself, so the reconciliation embedding is reused and one
fresh active fact is inserted. -/
theorem exec_add_own (env : Env) (now : Nat)
    (userId conversationId r : String) (ctxs : List MemCtx)
    (st : StoreState) (i : Nat) (c : MemCtx)
    (hk0 : ctxs.get? i = some c) :
    executeDecision env now userId conversationId ctxs st
      { new_memory_index := i, action := MemoryAction.ADD,
        content := some c.memory.content, target_memory_id := none,
        reason := r } =
    { db := st.db ++ [mkMemFact (env.freshId st.nextId) userId
        c.memory.content c.embedding c.memory.type c.memory.keywords
        (some conversationId) now],
      nextId := st.nextId + 1,
      effects := st.effects ++ [StoreEffect.insert
        (mkMemFact (env.freshId st.nextId) userId c.memory.content
          c.embedding c.memory.type c.memory.keywords (some conversationId)
          now)],
      embedCalls := st.embedCalls } := by
  unfold executeDecision
  rw [hk0]
  unfold addInternal
  simp [jsOr_self]

/-- Folding the synthesized ADD decisions over the store appends exactly
the expected insert per candidate, consuming consecutive ids. -/
theorem exec_addAll_aux (env : Env) (now : Nat)
    (userId conversationId r : String) (ctxs : List MemCtx) :
    ∀ (l : List MemCtx) (k : Nat) (st : StoreState),
    (∀ j, ctxs.get? (k + j) = l.get? j) →
    List.foldl (executeDecision env now userId conversationId ctxs) st
      ((l.enumFrom k).map (fun p =>
        ({ new_memory_index := p.1, action := MemoryAction.ADD,
           content := some p.2.memory.content, target_memory_id := none,
           reason := r } : MemoryDecision))) =
    { db := st.db ++
        expectedAddInserts env userId conversationId now l st.nextId,
      nextId := st.nextId + l.length,
      effects := st.effects ++
        (expectedAddInserts env userId conversationId now l
          st.nextId).map StoreEffect.insert,
      embedCalls := st.embedCalls } := by
  intro l
  induction l with
  | nil =>
      intro k st hk
      simp [expectedAddInserts]
  | cons c cs ih =>
      intro k st hk
      rw [List.enumFrom_cons, List.map_cons, List.foldl_cons]
      have hk0 : ctxs.get? k = some c := by
        have h0 := hk 0
        simpa using h0
      rw [exec_add_own env now userId conversationId r ctxs st k c hk0]
      rw [ih (k + 1) _ (fun j => by
        have hj := hk (j + 1)
        rw [show k + (j + 1) = k + 1 + j by omega] at hj
        simpa using hj)]
      simp only [expectedAddInserts, List.map_cons, List.length_cons]
      simp [List.append_assoc, StoreState.mk.injEq]
      omega

/-- Plumbing of `processExtraction` when candidates exist and at least
one survives reconciliation context building: the applied core updates
are the valid-label filter and the decisions of `decideStep` are folded
over the store. -/
theorem processExtraction_with_memories (env : Env) (st : StoreState)
    (now : Nat) (userId conversationId : String) (ext : ExtractionResult)
    (hmem : ext.memories ≠ [])
    (hctx : buildContexts env st.db ext.memories ≠ []) :
    processExtraction env st now userId conversationId ext =
      { applied := ext.core_memory_updates.filter (fun u =>
          validLabels.contains u.label),
        decisions := decideStep env (buildContexts env st.db ext.memories),
        store := (decideStep env
            (buildContexts env st.db ext.memories)).foldl
          (executeDecision env now userId conversationId
            (buildContexts env st.db ext.memories)) st } := by
  unfold processExtraction
  have hb : decide (ext.memories.length > 0) = true :=
    decide_eq_true (List.length_pos.mpr hmem)
  have hc : ¬ (buildContexts env st.db ext.memories).length = 0 := by
    intro h
    exact hctx (List.length_eq_zero.mp h)
  simp only [hb, Bool.not_true, Bool.false_and, Bool.and_false,
    if_neg (by simp : ¬ (false = true))]
  rw [if_neg hc]

/-- The synthesized ADD decisions written in terms of the candidate
memories rather than their contexts. -/
theorem addAllDecisions_eq_enumFrom (r : String) :
    ∀ (l : List MemCtx) (k : Nat),
    (l.enumFrom k).map (fun p =>
      ({ new_memory_index := p.1, action := MemoryAction.ADD,
         content := some p.2.memory.content, target_memory_id := none,
         reason := r } : MemoryDecision)) =
    ((l.map (fun c => c.memory)).enumFrom k).map (fun p =>
      ({ new_memory_index := p.1, action := MemoryAction.ADD,
         content := some p.2.content, target_memory_id := none,
         reason := r } : MemoryDecision)) := by
  intro l
  induction l with
  | nil => intro k; rfl
  | cons c cs ih =>
      intro k
      rw [List.enumFrom_cons, List.map_cons, List.map_cons,
        List.enumFrom_cons, List.map_cons]
      rw [ih (k + 1)]

/-- The expected ADD-all inserts carry exactly the candidate contents. -/
theorem expectedAddInserts_contents (env : Env)
    (userId conversationId : String) (now : Nat) :
    ∀ (l : List MemCtx) (n : Nat),
    (expectedAddInserts env userId conversationId now l n).map
      (fun f => f.content) = l.map (fun c => c.memory.content) := by
  intro l
  induction l with
  | nil => intro n; rfl
  | cons c cs ih =>
      intro n
      simp only [expectedAddInserts, List.map_cons, mkMemFact]
      rw [ih (n + 1)]

/-- Every expected ADD-all insert is active. -/
theorem expectedAddInserts_active (env : Env)
    (userId conversationId : String) (now : Nat) :
    ∀ (l : List MemCtx) (n : Nat),
    ∀ f ∈ expectedAddInserts env userId conversationId now l n,
    f.invalidAt = none := by
  intro l
  induction l with
  | nil => intro n f hf; simp [expectedAddInserts] at hf
  | cons c cs ih =>
      intro n f hf
      simp only [expectedAddInserts] at hf
      rcases List.mem_cons.mp hf with h | h
      · rw [h]; rfl
      · exact ih (n + 1) f h

/-- One expected insert per candidate. -/
theorem expectedAddInserts_length (env : Env)
    (userId conversationId : String) (now : Nat) :
    ∀ (l : List MemCtx) (n : Nat),
    (expectedAddInserts env userId conversationId now l n).length =
      l.length := by
  intro l
  induction l with
  | nil => intro n; rfl
  | cons c cs ih =>
      intro n
      simp only [expectedAddInserts, List.length_cons]
      rw [ih (n + 1)]

/-- C3 counterexample: the claim as stated fails on the reason string.
On a batch with no similar existing facts the synthesized decisions carry
the reason No similar existing memories found with a capital N, not the
all-lowercase string quoted by the claim. -/
theorem addAll_reason_capitalized :
    ((extractAndStoreMemories envA st0 100 "u1" "c1" []).decisions.map
      (fun d => d.reason)) =
      ["No similar existing memories found",
       "No similar existing memories found"] ∧
    "No similar existing memories found" ≠
      "no similar existing memories found" := by
  refine ⟨rfl, by decide⟩

/-- C3 (amended): for every batch whose deduplicated union of similar
existing facts is empty and whose candidates all survive context
building, reconciliation skips the LLM decision call (the decision
gateway is never consulted) and synthesizes exactly one ADD decision per
candidate with that candidate's own content and the reason No similar
existing memories found (capital N), and execution then inserts exactly
one new active fact per candidate carrying that candidate's content. -/
theorem addAll_when_no_similar (env : Env) (st : StoreState) (now : Nat)
    (userId conversationId : String) (messages : List Msg)
    (ext : ExtractionResult)
    (hext : env.extract messages = some ext)
    (hmem : ext.memories ≠ [])
    (hsurv : (buildContexts env st.db ext.memories).map
      (fun c => c.memory) = ext.memories)
    (hempty : uniqueExisting (buildContexts env st.db ext.memories) = []) :
    (extractAndStoreMemories env st now userId conversationId
        messages).decisions =
      ext.memories.enum.map (fun p =>
        ({ new_memory_index := p.1, action := MemoryAction.ADD,
           content := some p.2.content, target_memory_id := none,
           reason := "No similar existing memories found" } :
          MemoryDecision)) ∧
    (∀ dec', decideStep { env with decide := dec' }
        (buildContexts env st.db ext.memories) =
      decideStep env (buildContexts env st.db ext.memories)) ∧
    (extractAndStoreMemories env st now userId conversationId
        messages).store.db =
      st.db ++ expectedAddInserts env userId conversationId now
        (buildContexts env st.db ext.memories) st.nextId ∧
    (extractAndStoreMemories env st now userId conversationId
        messages).store.effects =
      st.effects ++ (expectedAddInserts env userId conversationId now
        (buildContexts env st.db ext.memories) st.nextId).map
        StoreEffect.insert ∧
    (expectedAddInserts env userId conversationId now
        (buildContexts env st.db ext.memories) st.nextId).map
      (fun f => f.content) = ext.memories.map (fun m => m.content) ∧
    (∀ f ∈ expectedAddInserts env userId conversationId now
        (buildContexts env st.db ext.memories) st.nextId,
      f.invalidAt = none) ∧
    (expectedAddInserts env userId conversationId now
        (buildContexts env st.db ext.memories) st.nextId).length =
      ext.memories.length := by
  have hctx : buildContexts env st.db ext.memories ≠ [] := by
    intro h
    apply hmem
    rw [← hsurv, h]
    rfl
  have hpipe : extractAndStoreMemories env st now userId conversationId
      messages = processExtraction env st now userId conversationId ext := by
    unfold extractAndStoreMemories
    rw [hext]
  have hdec : decideStep env (buildContexts env st.db ext.memories) =
      addAllDecisions (buildContexts env st.db ext.memories)
        "No similar existing memories found" := by
    unfold decideStep
    rw [hempty]
    rfl
  have hmain := processExtraction_with_memories env st now userId
    conversationId ext hmem hctx
  have hfold := exec_addAll_aux env now userId conversationId
    "No similar existing memories found"
    (buildContexts env st.db ext.memories)
    (buildContexts env st.db ext.memories) 0 st
    (fun j => by simp)
  refine ⟨?_, ?_, ?_, ?_, ?_, ?_, ?_⟩
  · rw [hpipe, hmain]
    show decideStep env (buildContexts env st.db ext.memories) = _
    rw [hdec]
    unfold addAllDecisions
    rw [show (buildContexts env st.db ext.memories).enum =
        (buildContexts env st.db ext.memories).enumFrom 0 from rfl]
    rw [addAllDecisions_eq_enumFrom, hsurv]
    rfl
  · intro dec'
    unfold decideStep
    rw [hempty]
    rfl
  · rw [hpipe, hmain]
    show ((decideStep env (buildContexts env st.db ext.memories)).foldl
      (executeDecision env now userId conversationId
        (buildContexts env st.db ext.memories)) st).db = _
    rw [hdec]
    unfold addAllDecisions
    rw [show (buildContexts env st.db ext.memories).enum =
        (buildContexts env st.db ext.memories).enumFrom 0 from rfl]
    rw [hfold]
  · rw [hpipe, hmain]
    show ((decideStep env (buildContexts env st.db ext.memories)).foldl
      (executeDecision env now userId conversationId
        (buildContexts env st.db ext.memories)) st).effects = _
    rw [hdec]
    unfold addAllDecisions
    rw [show (buildContexts env st.db ext.memories).enum =
        (buildContexts env st.db ext.memories).enumFrom 0 from rfl]
    rw [hfold]
  · rw [expectedAddInserts_contents]
    conv_rhs => rw [← hsurv]
    rw [List.map_map]
    rfl
  · exact expectedAddInserts_active env userId conversationId now _
      st.nextId
  · rw [expectedAddInserts_length]
    conv_rhs => rw [← hsurv]
    rw [List.length_map]

/-- C3 witness: two fresh semantic candidates against an empty store
yield two ADD decisions with the capitalized reason and two active
inserts. -/
theorem addAll_when_no_similar_witness :
    (extractAndStoreMemories envA st0 100 "u1" "c1" []).decisions =
      [{ new_memory_index := 0, action := MemoryAction.ADD,
         content := some "X", target_memory_id := none,
         reason := "No similar existing memories found" },
       { new_memory_index := 1, action := MemoryAction.ADD,
         content := some "B", target_memory_id := none,
         reason := "No similar existing memories found" }] := by
  have h := (addAll_when_no_similar envA st0 100 "u1" "c1" []
    { memories := [{ content := "X", type := MemoryType.semantic,
                     keywords := ["k"] },
                   { content := "B", type := MemoryType.episodic,
                     keywords := [] }],
      core_memory_updates := [] }
    rfl (by decide) rfl rfl).1
  rw [h]
  rfl

/-- C8: a core_memory_updates entry whose label lies outside the four
valid labels is dropped by the validLabels filter while the rest of the
batch is still processed: the whole run on the batch containing the
unknown-label entry equals the run on the batch without it, the applied
core updates are exactly the valid-labelled ones, and the unknown entry
is never applied; no error aborts the batch. -/
theorem invalid_label_filtered (env : Env) (st : StoreState) (now : Nat)
    (userId conversationId : String) (mems : List ExtractedMemory)
    (l1 l2 : List CoreUpdate) (bad : CoreUpdate)
    (hbad : validLabels.contains bad.label = false) :
    processExtraction env st now userId conversationId
        { memories := mems, core_memory_updates := l1 ++ bad :: l2 } =
      processExtraction env st now userId conversationId
        { memories := mems, core_memory_updates := l1 ++ l2 } ∧
    (processExtraction env st now userId conversationId
        { memories := mems,
          core_memory_updates := l1 ++ bad :: l2 }).applied =
      (l1 ++ l2).filter (fun u => validLabels.contains u.label) ∧
    bad ∉ (processExtraction env st now userId conversationId
        { memories := mems,
          core_memory_updates := l1 ++ bad :: l2 }).applied := by
  have hbadm : bad.label ∉ validLabels := by simpa using hbad
  have hfilt : (l1 ++ bad :: l2).filter
      (fun u => validLabels.contains u.label) =
      (l1 ++ l2).filter (fun u => validLabels.contains u.label) := by
    simp [List.filter_append, List.filter_cons, hbadm]
  have hlb : decide (0 < (l1 ++ bad :: l2).length) = true :=
    decide_eq_true (by simp)
  have happlied : (processExtraction env st now userId conversationId
      { memories := mems,
        core_memory_updates := l1 ++ bad :: l2 }).applied =
      (l1 ++ l2).filter (fun u => validLabels.contains u.label) := by
    unfold processExtraction
    simp only [hlb, Bool.not_true, Bool.and_false, Bool.false_eq_true,
      if_false]
    split
    · rw [hfilt]
    · split
      · rw [hfilt]
      · rw [hfilt]
  have hmain : processExtraction env st now userId conversationId
      { memories := mems, core_memory_updates := l1 ++ bad :: l2 } =
      processExtraction env st now userId conversationId
        { memories := mems, core_memory_updates := l1 ++ l2 } := by
    unfold processExtraction
    by_cases hm : mems = []
    · subst hm
      simp only [hlb, Bool.not_true, Bool.and_false, Bool.false_eq_true,
        if_false]
      by_cases hll : (l1 ++ l2) = []
      · rcases List.append_eq_nil.mp hll with ⟨hl1, hl2⟩
        subst hl1
        subst hl2
        simp [hbadm]
      · have hlb2 : decide (0 < (l1 ++ l2).length) = true :=
          decide_eq_true (List.length_pos.mpr hll)
        have hne : ¬(l1 = [] ∧ l2 = []) := by
          rintro ⟨h1, h2⟩
          exact hll (by rw [h1, h2]; rfl)
        simp [hlb2, List.filter_cons, hbadm, hne]
    · have hb : decide (0 < mems.length) = true :=
        decide_eq_true (List.length_pos.mpr hm)
      simp only [hb, Bool.not_true, Bool.false_and, Bool.false_eq_true,
        if_false]
      rw [hfilt]
  refine ⟨hmain, happlied, ?_⟩
  rw [happlied]
  intro h
  have := (List.mem_filter.mp h).2
  rw [hbad] at this
  exact absurd this (by simp)

/-- C8 witness: a batch holding one valid user_profile update and one
update labelled work_history applies exactly the valid one. -/
theorem invalid_label_filtered_witness :
    (processExtraction envA st0 100 "u1" "c1"
      { memories := [],
        core_memory_updates :=
          [{ label := "user_profile", content := "alpha" },
           { label := "work_history", content := "w" }] }).applied =
      [{ label := "user_profile", content := "alpha" }] := by
  have h := (invalid_label_filtered envA st0 100 "u1" "c1" []
    [{ label := "user_profile", content := "alpha" }] []
    { label := "work_history", content := "w" } (by decide)).2.1
  exact h

/-- C9: addFromTool (modelled from the spec) returns success and the new
id on a fresh insert, and a second call with normalized-identical content
for the same owner while the first fact is still active reports a
duplicate rejection through the content-hash fast path and performs no
second insert. -/
theorem addFromTool_duplicate_rejected (env : Env) (st : StoreState)
    (now1 now2 : Nat) (userId content content' : String)
    (t t' : MemoryType) (kw kw' : List String) (e : Embedding)
    (hnodup : st.db.any (fun f =>
      f.userId = userId &&
      f.contentHash = some (env.hashFn (normalizeContent content)) &&
      f.invalidAt = none) = false)
    (hgen : env.gen content = some e)
    (hnorm : normalizeContent content' = normalizeContent content) :
    ((addFromTool env st now1 userId content t kw).1.success = true ∧
     (addFromTool env st now1 userId content t kw).1.memoryId =
       some (env.freshId st.nextId)) ∧
    (addFromTool env (addFromTool env st now1 userId content t kw).2
       now2 userId content' t' kw').1.success = false ∧
    (addFromTool env (addFromTool env st now1 userId content t kw).2
       now2 userId content' t' kw').1.reason =
      some "duplicate memory content" ∧
    (addFromTool env (addFromTool env st now1 userId content t kw).2
       now2 userId content' t' kw').2 =
      (addFromTool env st now1 userId content t kw).2 := by
  have hst1 : addFromTool env st now1 userId content t kw =
      ({ success := true, memoryId := some (env.freshId st.nextId),
         reason := none },
       { db := st.db ++
           [{ mkMemFact (env.freshId st.nextId) userId content e t kw
                none now1 with
              contentHash := some (env.hashFn (normalizeContent content)) }],
         nextId := st.nextId + 1,
         effects := st.effects ++ [StoreEffect.insert
           { mkMemFact (env.freshId st.nextId) userId content e t kw
               none now1 with
             contentHash :=
               some (env.hashFn (normalizeContent content)) }],
         embedCalls := st.embedCalls ++ [content] }) := by
    unfold addFromTool
    simp only [hnodup, Bool.false_eq_true, if_false]
    rw [hgen]
  have hdupbr : ∀ (s : StoreState) (n : Nat) (c : String)
      (tx : MemoryType) (kx : List String),
      s.db.any (fun f =>
        f.userId = userId &&
        f.contentHash = some (env.hashFn (normalizeContent c)) &&
        f.invalidAt = none) = true →
      addFromTool env s n userId c tx kx =
        ({ success := false, memoryId := none,
           reason := some "duplicate memory content" }, s) := by
    intro s n c tx kx h
    unfold addFromTool
    simp only [h, if_true]
  have hany : ((addFromTool env st now1 userId content t kw).2).db.any
      (fun f =>
        f.userId = userId &&
        f.contentHash = some (env.hashFn (normalizeContent content')) &&
        f.invalidAt = none) = true := by
    rw [hst1, hnorm]
    simp [List.any_append, mkMemFact]
  have hst2 := hdupbr (addFromTool env st now1 userId content t kw).2
    now2 content' t' kw' hany
  refine ⟨⟨?_, ?_⟩, ?_, ?_, ?_⟩
  · rw [hst1]
  · rw [hst1]
  · rw [hst2]
  · rw [hst2]
  · rw [hst2]

/-- C9 witness: inserting one fact and then calling again with
normalized-identical content for the same owner reports a duplicate
rejection with the store unchanged. -/
theorem addFromTool_duplicate_rejected_witness :
    ((addFromTool envA st0 1 "u1" " Hello " MemoryType.semantic
        []).1.success = true ∧
     (addFromTool envA st0 1 "u1" " Hello " MemoryType.semantic
        []).1.memoryId = some "m0") ∧
    (addFromTool envA (addFromTool envA st0 1 "u1" " Hello "
       MemoryType.semantic []).2 2 "u1" " Hello " MemoryType.semantic
       []).1.success = false ∧
    (addFromTool envA (addFromTool envA st0 1 "u1" " Hello "
       MemoryType.semantic []).2 2 "u1" " Hello " MemoryType.semantic
       []).1.reason = some "duplicate memory content" ∧
    (addFromTool envA (addFromTool envA st0 1 "u1" " Hello "
       MemoryType.semantic []).2 2 "u1" " Hello " MemoryType.semantic
       []).2 =
      (addFromTool envA st0 1 "u1" " Hello " MemoryType.semantic []).2 :=
  addFromTool_duplicate_rejected envA st0 1 2 "u1" " Hello " " Hello "
    MemoryType.semantic MemoryType.semantic [] [] 7 (by decide) rfl rfl

/-- C10: a candidate whose embedding or similarity search throws is
silently dropped before reconciliation while the others proceed (context
building is the filterMap of the surviving candidates in order); decision
indices address the surviving list, so with the first of two candidates
failing, index 0 addresses the second original candidate; and when every
candidate fails the stage returns with no decisions and an untouched
store. -/
theorem failed_candidates_dropped (env : Env) (st : StoreState)
    (now : Nat) (userId conversationId : String) (messages : List Msg)
    (ext : ExtractionResult) :
    (∀ (db : List Fact) (mems : List ExtractedMemory),
      buildContexts env db mems = mems.filterMap (fun m =>
        (env.gen m.content).bind (fun e =>
          (env.vecSearch e).map (fun hits =>
            ({ memory := m, embedding := e,
               similar := collectSimilar db hits } : MemCtx))))) ∧
    ((extractAndStoreMemories envB st0 100 "u1" "c1" []).decisions =
      [{ new_memory_index := 0, action := MemoryAction.ADD,
         content := some "B", target_memory_id := none,
         reason := "No similar existing memories found" }] ∧
     (extractAndStoreMemories envB st0 100 "u1"
        "c1" []).store.db.map (fun f => f.content) = ["B"]) ∧
    (env.extract messages = some ext →
     (∀ m ∈ ext.memories, env.gen m.content = none ∨
        ∀ e, env.gen m.content = some e → env.vecSearch e = none) →
     (extractAndStoreMemories env st now userId conversationId
        messages).decisions = [] ∧
     (extractAndStoreMemories env st now userId conversationId
        messages).store = st) := by
  have hfm : ∀ (db : List Fact) (mems : List ExtractedMemory),
      buildContexts env db mems = mems.filterMap (fun m =>
        (env.gen m.content).bind (fun e =>
          (env.vecSearch e).map (fun hits =>
            ({ memory := m, embedding := e,
               similar := collectSimilar db hits } : MemCtx)))) := by
    intro db mems
    induction mems with
    | nil => rfl
    | cons m ms ih =>
        simp only [buildContexts, List.filterMap_cons]
        rcases hg : env.gen m.content with _ | e
        · simp [hg, ih]
        · rcases hv : env.vecSearch e with _ | hits
          · simp [hg, hv, ih]
          · simp [hg, hv, ih]
  refine ⟨hfm, ⟨rfl, rfl⟩, ?_⟩
  intro hext hfail
  have hctx0 : buildContexts env st.db ext.memories = [] := by
    rw [hfm]
    rw [List.filterMap_eq_nil_iff]
    intro m hm
    rcases hfail m hm with h | h
    · rw [h]
      rfl
    · rcases hg : env.gen m.content with _ | e
      · rfl
      · simp [hg, h e hg]
  have hpipe : extractAndStoreMemories env st now userId conversationId
      messages = processExtraction env st now userId conversationId
      ext := by
    unfold extractAndStoreMemories
    rw [hext]
  rw [hpipe]
  unfold processExtraction
  simp only [hctx0]
  constructor
  · split
    · rfl
    · split
      · rfl
      · simp
  · split
    · rfl
    · split
      · rfl
      · simp

/-- C10 witness: when the embedding gateway throws on every candidate,
the stage ends with no decisions and the store untouched. -/
theorem failed_candidates_dropped_witness :
    (extractAndStoreMemories envC st0 100 "u1" "c1" []).decisions = [] ∧
    (extractAndStoreMemories envC st0 100 "u1" "c1" []).store = st0 :=
  (failed_candidates_dropped envC st0 100 "u1" "c1" []
    { memories := [{ content := "X", type := MemoryType.semantic,
                     keywords := ["k"] },
                   { content := "B", type := MemoryType.episodic,
                     keywords := [] }],
      core_memory_updates := [] }).2.2 rfl
    (fun _ _ => Or.inl rfl)

end Kintsu
